import Mathlib

/-!
Shallow embedding of the `ikrbasak/rate-limiter` core (src/index.ts and
src/core/index.ts).  The three algorithm engines are pure functions of the
store state they read, the wall-clock instant `now`, and the resolved
configuration; each returns the uniform evaluation result together with the
state it writes back.  Token amounts are modelled as rationals (the source
uses JavaScript numbers; every reachable token value is a multiple of 1/100
because the code persists `newTokens.toFixed(2)`), timestamps and counters as
integers.
-/

/-- Result returned by every `evaluate()` call
(`RateLimiterEvaluationResult` in src/index.ts). -/
structure EvalResult where
  limit : ℚ
  allowed : Bool
  remaining : ℤ
  retryAfter : ℤ
  deriving Repr, DecidableEq

/-- Stored state of one fixed-window counter key: the counter value and its
expiry in milliseconds.  `ttl = none` models a key without TTL
(Redis PTTL sentinel `-1`). -/
structure FWRecord where
  count : ℤ
  ttl : Option ℤ
  deriving Repr, DecidableEq

/-- Value returned by PTTL on an existing key: the remaining TTL, or the
sentinel `-1` when the key has no expiry. -/
def FWRecord.pttl (r : FWRecord) : ℤ :=
  match r.ttl with
  | none => -1
  | some t => t

/-- Outcome of one fixed-window evaluation: the caller-visible result and the
counter state left in the store. -/
structure FWOutcome where
  result : EvalResult
  state : FWRecord
  deriving Repr, DecidableEq

/-- `evaluateFixedWindowLimit` from src/index.ts: INCR the counter, PEXPIRE it
to `window` when the increment created it (returned 1), read PTTL, and build
the result.  `st = none` models an absent key. -/
def evaluateFixedWindowLimit (st : Option FWRecord) (limit window : ℤ) :
    FWOutcome :=
  let count : ℤ := (match st with | none => 0 | some r => r.count) + 1
  let st1 : FWRecord :=
    if count = 1 then ⟨count, some window⟩
    else ⟨count, match st with | none => none | some r => r.ttl⟩
  let ttl : ℤ := st1.pttl
  let allowed : Bool := decide (count ≤ limit)
  { result :=
      { limit := (limit : ℚ)
        allowed := allowed
        remaining := max 0 (limit - count)
        retryAfter := if allowed then 0 else ⌈(ttl : ℚ) / 1000⌉ }
    state := st1 }

/-- Stored state of one token-bucket key: the hash fields
`tokens` and `last_refill`. -/
structure TBRecord where
  tokens : ℚ
  lastRefill : ℤ
  deriving Repr, DecidableEq

/-- Outcome of one token-bucket evaluation: the caller-visible result, the
hash record written back by the transaction, and the expiry it sets. -/
structure TBOutcome where
  result : EvalResult
  written : TBRecord
  expiry : ℤ
  deriving Repr, DecidableEq

/-- Models `Number.prototype.toFixed(2)` on the model's rationals: rounding to
a multiple of 1/100.  On every value the code itself ever stores (multiples of
1/100) this is the identity. -/
def roundTo2 (q : ℚ) : ℚ := (⌊q * 100 + 1 / 2⌋ : ℤ) / 100

/-- `evaluateTokenBucketLimit` from src/index.ts: HMGET `tokens`/`last_refill`
(defaulting to `limit` and `now` when absent), refill by
`floor(elapsedSeconds * refill)` capped at `limit`, admit and decrement when
at least one token is available, then HSET `newTokens.toFixed(2)` and
`last_refill = now` and PEXPIRE `window` in one MULTI transaction. -/
def evaluateTokenBucketLimit (st : Option TBRecord) (now : ℤ)
    (limit refill : ℚ) (window : ℤ) : TBOutcome :=
  let tokens : ℚ := match st with | none => limit | some r => r.tokens
  let lastRefill : ℤ := match st with | none => now | some r => r.lastRefill
  let elapsed : ℚ := ((now - lastRefill : ℤ) : ℚ) / 1000
  let refillAmount : ℤ := ⌊elapsed * refill⌋
  let newTokens0 : ℚ := min limit (tokens + (refillAmount : ℚ))
  let allowed : Bool := decide (1 ≤ newTokens0)
  let newTokens : ℚ := if 1 ≤ newTokens0 then newTokens0 - 1 else newTokens0
  { result :=
      { limit := limit
        allowed := allowed
        remaining := ⌊newTokens⌋
        retryAfter := if allowed then 0 else ⌈1 / refill⌉ }
    written := { tokens := roundTo2 newTokens, lastRefill := now }
    expiry := window }

/-- Modelled from the spec: reference token-bucket evaluation transcribed from
the spec's own words (§4.3), used to state the refinement claim.  It differs
from the source only in persisting `newTokens` exactly instead of the
`toFixed(2)` rounding. -/
def tokenBucketSpecEval (st : Option TBRecord) (now : ℤ)
    (capacity refillPerSecond : ℚ) (windowMs : ℤ) : TBOutcome :=
  let tokens : ℚ := match st with | none => capacity | some r => r.tokens
  let lastRefill : ℤ := match st with | none => now | some r => r.lastRefill
  let elapsedSeconds : ℚ := ((now - lastRefill : ℤ) : ℚ) / 1000
  let refillAmount : ℤ := ⌊elapsedSeconds * refillPerSecond⌋
  let newTokens0 : ℚ := min capacity (tokens + (refillAmount : ℚ))
  let allowed : Bool := decide (1 ≤ newTokens0)
  let newTokens : ℚ := if 1 ≤ newTokens0 then newTokens0 - 1 else newTokens0
  { result :=
      { limit := capacity
        allowed := allowed
        remaining := ⌊newTokens⌋
        retryAfter := if allowed then 0 else ⌈1 / refillPerSecond⌉ }
    written := { tokens := newTokens, lastRefill := now }
    expiry := windowMs }

/-- One entry of the sliding-window sorted set: a score (timestamp) and the
member string that disambiguates entries. -/
structure SWEntry where
  score : ℤ
  member : String
  deriving Repr, DecidableEq

/-- `ZREMRANGEBYSCORE key lo hi`: remove every entry whose score lies in
`[lo, hi]`. -/
def zremrangebyscore (l : List SWEntry) (lo hi : ℤ) : List SWEntry :=
  l.filter fun e => !(decide (lo ≤ e.score ∧ e.score ≤ hi))

/-- `ZADD key score member`: update the score when the member already exists,
otherwise add the entry. -/
def zadd (l : List SWEntry) (score : ℤ) (member : String) : List SWEntry :=
  if l.any fun e => e.member == member then
    l.map fun e => if e.member == member then ⟨score, member⟩ else e
  else l ++ [⟨score, member⟩]

/-- Score of the entry `ZRANGE key 0 0 WITHSCORES` returns: the minimum score
present, `none` on an empty set. -/
def oldestScore (l : List SWEntry) : Option ℤ :=
  (l.map SWEntry.score).min?

/-- Outcome of one sliding-window evaluation: the caller-visible result, the
final sorted-set contents, and the expiry set by the insert transaction
(`none` when nothing was inserted). -/
structure SWOutcome where
  result : EvalResult
  log : List SWEntry
  expiry : Option ℤ
  deriving Repr, DecidableEq

/-- `evaluateSlidingWindowLimit` from src/index.ts: prune scores in
`[0, now - window]`, count the survivors, insert `⟨now, "now-tag"⟩` and
PEXPIRE `window` in one MULTI when `count < limit`, and on denial derive
`retryAfter` from the oldest surviving score.  `tag` models the
`Math.random()` disambiguator appended to the member string. -/
def evaluateSlidingWindowLimit (log : List SWEntry) (now : ℤ)
    (limit window : ℤ) (tag : String) : SWOutcome :=
  let windowStart : ℤ := now - window
  let pruned : List SWEntry := zremrangebyscore log 0 windowStart
  let count : ℤ := (pruned.length : ℤ)
  let inserted : List SWEntry :=
    if count < limit then zadd pruned now (toString now ++ "-" ++ tag)
    else pruned
  let retryAfter : ℤ :=
    if limit ≤ count then
      match oldestScore pruned with
      | some s => ⌈((s + window - now : ℤ) : ℚ) / 1000⌉
      | none => 0
    else 0
  { result :=
      { limit := (limit : ℚ)
        allowed := decide (count < limit)
        remaining := max 0 (limit - count)
        retryAfter := retryAfter }
    log := inserted
    expiry := if count < limit then some window else none }

/-- A key source as accepted by src/index.ts: a literal string or a value
generator.  A generator is modelled as the stream of values its successive
invocations return, so `g n` is what the producer yields when invoked for the
`n`-th time. -/
inductive KeySource where
  | literal (s : String)
  | producer (g : ℕ → String)

/-- Resolve a key source at its `n`-th invocation. -/
def resolveKeyAt : KeySource → ℕ → String
  | .literal s, _ => s
  | .producer g, n => g n

/-- `generateKey` of both implementations: physical key
`prefix:algorithm:logicalKey`. -/
def generateKey (pfx algo logicalKey : String) : String :=
  pfx ++ ":" ++ algo ++ ":" ++ logicalKey

/-- src/index.ts: `evaluate()` calls `generateKey` on every call, so the
`n`-th `evaluate()` uses the producer's `n`-th value. -/
def mainKeyAtCall (pfx algo : String) (key : KeySource) (n : ℕ) : String :=
  generateKey pfx algo (resolveKeyAt key n)

/-- src/core/index.ts: `create()` computes `redisKey` once (the producer's
first and only invocation) and every `evaluate()` closes over it. -/
def coreKeyAtCall (pfx algo : String) (key : KeySource) (_n : ℕ) : String :=
  generateKey pfx algo (resolveKeyAt key 0)

/-- A limit source as accepted by src/index.ts: a literal number or a value
generator, modelled like `KeySource`. -/
inductive LimitSource where
  | literal (v : ℤ)
  | producer (g : ℕ → ℤ)

/-- Resolve a limit source at its `n`-th invocation. -/
def resolveLimitAt : LimitSource → ℕ → ℤ
  | .literal v, _ => v
  | .producer g, n => g n

/-- src/index.ts: `evaluate()` re-resolves the limit on every call, so the
`n`-th `evaluate()` uses the producer's `n`-th value. -/
def mainLimitAtCall (lim : LimitSource) (n : ℕ) : ℤ :=
  resolveLimitAt lim n

/-- A rational that is a multiple of 1/100 — the shape of every token value
the code itself persists (`toFixed(2)`), and of every integer capacity. -/
def TwoDecimal (q : ℚ) : Prop := ∃ k : ℤ, q = (k : ℚ) / 100

/-- State written back by one token-bucket evaluation on an existing key. -/
def tbStep (limit refill : ℚ) (window : ℤ) (r : TBRecord) (now : ℤ) :
    TBRecord :=
  (evaluateTokenBucketLimit (some r) now limit refill window).written

/-- Fold a sequence of token-bucket evaluations (at the given instants) over
one key, starting from an existing record. -/
def tbRun (limit refill : ℚ) (window : ℤ) (r : TBRecord) :
    List ℤ → TBRecord
  | [] => r
  | n :: ns => tbRun limit refill window (tbStep limit refill window r n) ns

/-- The instants `ns`, following the stored instant `t0`, are such that every
consecutive elapsed interval refills zero whole tokens:
`floor(elapsedSeconds * refill) = 0` at each step. -/
def noRefillChain (refill : ℚ) (t0 : ℤ) : List ℤ → Prop
  | [] => True
  | n :: ns =>
    ⌊(((n - t0 : ℤ) : ℚ) / 1000) * refill⌋ = 0 ∧ noRefillChain refill n ns

/-! Helper lemmas about the `toFixed(2)` model. -/

theorem twoDecimal_intCast (k : ℤ) : TwoDecimal (k : ℚ) :=
  ⟨k * 100, by push_cast; ring⟩

theorem twoDecimal_add_intCast (q : ℚ) (k : ℤ) (h : TwoDecimal q) :
    TwoDecimal (q + (k : ℚ)) := by
  obtain ⟨m, rfl⟩ := h
  exact ⟨m + k * 100, by push_cast; ring⟩

theorem twoDecimal_sub_one (q : ℚ) (h : TwoDecimal q) : TwoDecimal (q - 1) := by
  obtain ⟨m, rfl⟩ := h
  exact ⟨m - 100, by push_cast; ring⟩

theorem twoDecimal_min (a b : ℚ) (ha : TwoDecimal a) (hb : TwoDecimal b) :
    TwoDecimal (min a b) := by
  rcases le_total a b with h | h
  · rwa [min_eq_left h]
  · rwa [min_eq_right h]

theorem roundTo2_twoDecimal (q : ℚ) : TwoDecimal (roundTo2 q) :=
  ⟨⌊q * 100 + 1 / 2⌋, rfl⟩

theorem roundTo2_eq_of_twoDecimal (q : ℚ) (h : TwoDecimal q) :
    roundTo2 q = q := by
  obtain ⟨k, rfl⟩ := h
  unfold roundTo2
  rw [div_mul_cancel₀ (k : ℚ) (by norm_num : (100 : ℚ) ≠ 0),
    Int.floor_int_add, show ⌊(1 : ℚ) / 2⌋ = 0 by norm_num, add_zero]

theorem roundTo2_mono (a b : ℚ) (h : a ≤ b) : roundTo2 a ≤ roundTo2 b := by
  unfold roundTo2
  have hf : ⌊a * 100 + 1 / 2⌋ ≤ ⌊b * 100 + 1 / 2⌋ :=
    Int.floor_le_floor (by linarith)
  have hc : ((⌊a * 100 + 1 / 2⌋ : ℤ) : ℚ) ≤ ((⌊b * 100 + 1 / 2⌋ : ℤ) : ℚ) :=
    Int.cast_le.2 hf
  linarith

theorem roundTo2_le_add (q : ℚ) : roundTo2 q ≤ q + 1 / 200 := by
  unfold roundTo2
  have hf : ((⌊q * 100 + 1 / 2⌋ : ℤ) : ℚ) ≤ q * 100 + 1 / 2 :=
    Int.floor_le _
  linarith

theorem roundTo2_nonneg (q : ℚ) (h : 0 ≤ q) : 0 ≤ roundTo2 q := by
  unfold roundTo2
  have hf : (0 : ℤ) ≤ ⌊q * 100 + 1 / 2⌋ :=
    Int.le_floor.2 (by push_cast; linarith)
  positivity

theorem roundTo2_le_one (q : ℚ) (h : q < 1) : roundTo2 q ≤ 1 := by
  unfold roundTo2
  have hf : ⌊q * 100 + 1 / 2⌋ < 101 := Int.floor_lt.2 (by push_cast; linarith)
  have hc : ((⌊q * 100 + 1 / 2⌋ : ℤ) : ℚ) ≤ 100 := by
    have : ⌊q * 100 + 1 / 2⌋ ≤ 100 := by omega
    exact_mod_cast this
  linarith

/-- C1: the token-bucket engine is a read-modify-write whose read (HMGET) and
transactional write are separate store round trips, so two concurrent
evaluators sharing one key can read the same `(tokens, lastRefill)` snapshot.
At the snapshot `tokens = 1, lastRefill = now = 0` (capacity 1, refill 1/s)
each such reader decides to admit (first conjunct) and writes back the same
depleted record (second conjunct), so the interleaving admits twice; an
evaluator that instead runs after the first write is denied (third conjunct),
so serialized execution admits once — the race silently grants one extra
admission. -/
theorem tokenBucket_read_modify_write_race :
    (evaluateTokenBucketLimit (some ⟨1, 0⟩) 0 1 1 60000).result.allowed =
      true ∧
    (evaluateTokenBucketLimit (some ⟨1, 0⟩) 0 1 1 60000).written = ⟨0, 0⟩ ∧
    (evaluateTokenBucketLimit (some ⟨0, 0⟩) 0 1 1 60000).result.allowed =
      false := by
  refine ⟨?_, ?_, ?_⟩ <;>
    norm_num [evaluateTokenBucketLimit, roundTo2, TBRecord.mk.injEq]

/-- C2: across all three algorithms, whenever the returned result has
`allowed = true` its `retryAfter` is `0`. -/
theorem allowed_implies_retryAfter_zero :
    (∀ (st : Option FWRecord) (limit window : ℤ),
        (evaluateFixedWindowLimit st limit window).result.allowed = true →
        (evaluateFixedWindowLimit st limit window).result.retryAfter = 0) ∧
    (∀ (st : Option TBRecord) (now : ℤ) (limit refill : ℚ) (window : ℤ),
        (evaluateTokenBucketLimit st now limit refill window).result.allowed =
            true →
        (evaluateTokenBucketLimit st now limit refill window).result.retryAfter
          = 0) ∧
    (∀ (log : List SWEntry) (now limit window : ℤ) (tag : String),
        (evaluateSlidingWindowLimit log now limit window tag).result.allowed =
            true →
        (evaluateSlidingWindowLimit log now limit window
            tag).result.retryAfter = 0) := by
  refine ⟨?_, ?_, ?_⟩
  · intro st limit window h
    simp only [evaluateFixedWindowLimit] at h ⊢
    exact if_pos h
  · intro st now limit refill window h
    simp only [evaluateTokenBucketLimit] at h ⊢
    exact if_pos h
  · intro log now limit window tag h
    simp only [evaluateSlidingWindowLimit, decide_eq_true_eq] at h ⊢
    exact if_neg (not_le.2 h)

/-- Closed instance of `allowed_implies_retryAfter_zero`: one allowed call of
each algorithm, each with `retryAfter = 0`. -/
theorem allowed_implies_retryAfter_zero_witness :
    (evaluateFixedWindowLimit none 5 60000).result.retryAfter = 0 ∧
    (evaluateTokenBucketLimit none 0 5 1 60000).result.retryAfter = 0 ∧
    (evaluateSlidingWindowLimit [] 1000 1 60000 "t").result.retryAfter = 0 :=
  ⟨allowed_implies_retryAfter_zero.1 none 5 60000
      (by norm_num [evaluateFixedWindowLimit]),
   allowed_implies_retryAfter_zero.2.1 none 0 5 1 60000
      (by norm_num [evaluateTokenBucketLimit]),
   allowed_implies_retryAfter_zero.2.2 [] 1000 1 60000 "t"
      (by norm_num [evaluateSlidingWindowLimit, zremrangebyscore])⟩

/-- C3: the token-bucket evaluation agrees exactly with the spec's §4.3
description (absent state defaults to a full bucket stamped `now`;
`newTokens = min(capacity, tokens + floor(elapsedSeconds * refill))`; admit
and decrement iff `newTokens ≥ 1`; persist `(newTokens, now)` with expiry
`windowMs`; `remaining = floor(newTokens)`；`retryAfter` is `0` when allowed
and `ceil(1/refill)` when denied; in particular the available tokens after
`t` idle seconds are `min(capacity, previousTokens + floor(t * refill))`).
The hypotheses say the stored tokens value and the capacity are multiples of
1/100 — true of every value the code itself persists (`toFixed(2)`) and of
every integer capacity — which makes the source's `toFixed(2)` rounding the
identity. -/
theorem tokenBucket_matches_spec (st : Option TBRecord) (now : ℤ)
    (limit refill : ℚ) (window : ℤ) (hcap : TwoDecimal limit)
    (hst : ∀ r, st = some r → TwoDecimal r.tokens) (_hrefill : 0 < refill) :
    evaluateTokenBucketLimit st now limit refill window =
      tokenBucketSpecEval st now limit refill window := by
  cases st with
  | none =>
      simp only [evaluateTokenBucketLimit, tokenBucketSpecEval,
        TBOutcome.mk.injEq, TBRecord.mk.injEq, and_true, true_and]
      apply roundTo2_eq_of_twoDecimal
      split_ifs with h
      · exact twoDecimal_sub_one _ (twoDecimal_min _ _ hcap
          (twoDecimal_add_intCast _ _ hcap))
      · exact twoDecimal_min _ _ hcap (twoDecimal_add_intCast _ _ hcap)
  | some r =>
      have htok := hst r rfl
      simp only [evaluateTokenBucketLimit, tokenBucketSpecEval,
        TBOutcome.mk.injEq, TBRecord.mk.injEq, and_true, true_and]
      apply roundTo2_eq_of_twoDecimal
      split_ifs with h
      · exact twoDecimal_sub_one _ (twoDecimal_min _ _ hcap
          (twoDecimal_add_intCast _ _ htok))
      · exact twoDecimal_min _ _ hcap (twoDecimal_add_intCast _ _ htok)

/-- Closed instance of `tokenBucket_matches_spec`: a bucket holding 3 tokens
refilled for 2 seconds at 1 token/s under capacity 5. -/
theorem tokenBucket_matches_spec_witness :
    evaluateTokenBucketLimit (some ⟨3, 0⟩) 2000 5 1 60000 =
      tokenBucketSpecEval (some ⟨3, 0⟩) 2000 5 1 60000 :=
  tokenBucket_matches_spec (some ⟨3, 0⟩) 2000 5 1 60000 ⟨500, by norm_num⟩
    (fun r hr => by cases hr; exact ⟨300, by norm_num⟩) (by norm_num)

/-- C4: the fixed-window evaluation increments the counter, sets the expiry
to `window` exactly when the increment returned 1 (and otherwise leaves the
stored TTL alone), and returns `allowed = (count ≤ limit)`,
`remaining = max(0, limit − count)`, `retryAfter = 0` when allowed and
`ceil(ttl/1000)` from the TTL read when denied; a missing TTL (PTTL sentinel
`-1`) yields `retryAfter = 0`. -/
theorem fixedWindow_matches_spec (st : Option FWRecord) (limit window : ℤ) :
    (evaluateFixedWindowLimit st limit window).state.count =
      (match st with | none => 0 | some r => r.count) + 1 ∧
    ((evaluateFixedWindowLimit st limit window).state.count = 1 →
      (evaluateFixedWindowLimit st limit window).state.ttl = some window) ∧
    ((evaluateFixedWindowLimit st limit window).state.count ≠ 1 →
      (evaluateFixedWindowLimit st limit window).state.ttl =
        (match st with | none => none | some r => r.ttl)) ∧
    ((evaluateFixedWindowLimit st limit window).result.allowed = true ↔
      (evaluateFixedWindowLimit st limit window).state.count ≤ limit) ∧
    (evaluateFixedWindowLimit st limit window).result.remaining =
      max 0 (limit - (evaluateFixedWindowLimit st limit window).state.count) ∧
    ((evaluateFixedWindowLimit st limit window).result.allowed = true →
      (evaluateFixedWindowLimit st limit window).result.retryAfter = 0) ∧
    ((evaluateFixedWindowLimit st limit window).result.allowed = false →
      (evaluateFixedWindowLimit st limit window).result.retryAfter =
        ⌈(((evaluateFixedWindowLimit st limit window).state.pttl : ℤ) : ℚ) /
            1000⌉) ∧
    ((evaluateFixedWindowLimit st limit window).state.ttl = none →
      (evaluateFixedWindowLimit st limit window).result.retryAfter = 0) := by
  cases st with
  | none =>
      refine ⟨?_, ?_, ?_, ?_, ?_, ?_, ?_, ?_⟩
      · simp [evaluateFixedWindowLimit]
      · simp [evaluateFixedWindowLimit]
      · simp [evaluateFixedWindowLimit]
      · simp [evaluateFixedWindowLimit]
      · simp [evaluateFixedWindowLimit]
      · intro h
        simp only [evaluateFixedWindowLimit] at h ⊢
        exact if_pos h
      · intro h
        simp only [evaluateFixedWindowLimit] at h ⊢
        rw [h]
        simp
      · intro h
        simp [evaluateFixedWindowLimit] at h
  | some r =>
      by_cases hc : r.count + 1 = 1
      · refine ⟨?_, ?_, ?_, ?_, ?_, ?_, ?_, ?_⟩
        · simp only [evaluateFixedWindowLimit]
          split_ifs <;> rfl
        · simp [evaluateFixedWindowLimit, hc]
        · simp [evaluateFixedWindowLimit, hc]
        · simp [evaluateFixedWindowLimit, hc]
        · simp [evaluateFixedWindowLimit, hc]
        · intro h
          simp only [evaluateFixedWindowLimit] at h ⊢
          exact if_pos h
        · intro h
          simp only [evaluateFixedWindowLimit] at h ⊢
          rw [h]
          simp
        · intro h
          simp [evaluateFixedWindowLimit, hc] at h
      · refine ⟨?_, ?_, ?_, ?_, ?_, ?_, ?_, ?_⟩
        · simp only [evaluateFixedWindowLimit]
          split_ifs <;> rfl
        · simp [evaluateFixedWindowLimit, hc]
        · simp [evaluateFixedWindowLimit, hc]
        · simp [evaluateFixedWindowLimit, hc]
        · simp [evaluateFixedWindowLimit, hc]
        · intro h
          simp only [evaluateFixedWindowLimit] at h ⊢
          exact if_pos h
        · intro h
          simp only [evaluateFixedWindowLimit] at h ⊢
          rw [h]
          simp
        · intro h
          simp only [evaluateFixedWindowLimit, if_neg hc] at h ⊢
          rw [h]
          simp only [FWRecord.pttl]
          split_ifs <;> norm_num

/-- Closed instance of `fixedWindow_matches_spec`: a first call with
`limit = 0` creates the counter with expiry and, being denied, reports
`retryAfter` derived from the TTL read. -/
theorem fixedWindow_matches_spec_witness :
    (evaluateFixedWindowLimit none 0 60000).state.ttl = some 60000 ∧
    (evaluateFixedWindowLimit none 0 60000).result.retryAfter =
      ⌈(((evaluateFixedWindowLimit none 0 60000).state.pttl : ℤ) : ℚ) /
          1000⌉ :=
  ⟨(fixedWindow_matches_spec none 0 60000).2.1
      (by norm_num [evaluateFixedWindowLimit]),
   (fixedWindow_matches_spec none 0 60000).2.2.2.2.2.2.1
      (by norm_num [evaluateFixedWindowLimit])⟩

/-- Entries surviving the prune are entries of the original log. -/
theorem mem_of_mem_zremrangebyscore (l : List SWEntry) (lo hi : ℤ)
    (e : SWEntry) (h : e ∈ zremrangebyscore l lo hi) : e ∈ l :=
  (List.mem_filter.1 h).1

/-- ZADD with a member absent from the set appends a fresh entry. -/
theorem zadd_of_fresh (l : List SWEntry) (s : ℤ) (m : String)
    (h : ∀ e ∈ l, e.member ≠ m) : zadd l s m = l ++ [⟨s, m⟩] := by
  have hany : (l.any fun e => e.member == m) = false := by
    rw [List.any_eq_false]
    intro e he
    simpa using h e he
  unfold zadd
  rw [hany]
  simp

/-- C5: the sliding-window evaluation removes exactly the entries with score
`≤ now − window` (given that all stored scores are timestamps `≥ 0`), counts
the survivors, inserts one uniquely-tagged entry scored `now` and refreshes
the expiry iff `count < limit` (given the tagged member is fresh, as the
`Math.random()` disambiguator is meant to guarantee), returns
`allowed = (count < limit)` using the pre-insert count,
`remaining = max(0, limit − count)`, and on denial derives `retryAfter` from
the oldest surviving score — staying `0` when no oldest entry can be read. -/
theorem slidingWindow_matches_spec (log : List SWEntry)
    (now limit window : ℤ) (tag : String)
    (hscore : ∀ e ∈ log, 0 ≤ e.score)
    (hfresh : ∀ e ∈ log, e.member ≠ toString now ++ "-" ++ tag) :
    zremrangebyscore log 0 (now - window) =
      log.filter (fun e => decide (now - window < e.score)) ∧
    (((zremrangebyscore log 0 (now - window)).length : ℤ) < limit →
      (evaluateSlidingWindowLimit log now limit window tag).log =
        zremrangebyscore log 0 (now - window) ++
          [⟨now, toString now ++ "-" ++ tag⟩] ∧
      (evaluateSlidingWindowLimit log now limit window tag).expiry =
        some window) ∧
    (limit ≤ ((zremrangebyscore log 0 (now - window)).length : ℤ) →
      (evaluateSlidingWindowLimit log now limit window tag).log =
        zremrangebyscore log 0 (now - window) ∧
      (evaluateSlidingWindowLimit log now limit window tag).expiry = none) ∧
    ((evaluateSlidingWindowLimit log now limit window tag).result.allowed =
        true ↔
      ((zremrangebyscore log 0 (now - window)).length : ℤ) < limit) ∧
    (evaluateSlidingWindowLimit log now limit window tag).result.remaining =
      max 0 (limit - ((zremrangebyscore log 0 (now - window)).length : ℤ)) ∧
    (limit ≤ ((zremrangebyscore log 0 (now - window)).length : ℤ) →
      (evaluateSlidingWindowLimit log now limit window tag).result.retryAfter
        =
        match oldestScore (zremrangebyscore log 0 (now - window)) with
        | some s => ⌈((s + window - now : ℤ) : ℚ) / 1000⌉
        | none => 0) := by
  refine ⟨?_, ?_, ?_, ?_, ?_, ?_⟩
  · unfold zremrangebyscore
    apply List.filter_congr
    intro e he
    have h0 := hscore e he
    by_cases hlt : now - window < e.score
    · have hnle : ¬e.score ≤ now - window := not_le.2 hlt
      simp [hlt, hnle]
    · have hle : e.score ≤ now - window := not_lt.1 hlt
      simp [hlt, h0, hle]
  · intro h
    constructor
    · simp only [evaluateSlidingWindowLimit]
      rw [if_pos h]
      exact zadd_of_fresh _ _ _ fun e he =>
        hfresh e (mem_of_mem_zremrangebyscore _ _ _ _ he)
    · simp only [evaluateSlidingWindowLimit]
      rw [if_pos h]
  · intro h
    constructor
    · simp only [evaluateSlidingWindowLimit]
      rw [if_neg (not_lt.2 h)]
    · simp only [evaluateSlidingWindowLimit]
      rw [if_neg (not_lt.2 h)]
  · simp [evaluateSlidingWindowLimit]
  · simp only [evaluateSlidingWindowLimit]
  · intro h
    simp only [evaluateSlidingWindowLimit]
    rw [if_pos h]

/-- Closed instance of `slidingWindow_matches_spec`: one stale entry is
pruned and the call admits, appending a fresh tagged entry. -/
theorem slidingWindow_matches_spec_witness :
    (evaluateSlidingWindowLimit [⟨0, "0-x"⟩] 70000 1 60000 "y").log =
      zremrangebyscore [⟨0, "0-x"⟩] 0 (70000 - 60000) ++
        [⟨70000, toString (70000 : ℤ) ++ "-" ++ "y"⟩] ∧
    (evaluateSlidingWindowLimit [⟨0, "0-x"⟩] 70000 1 60000 "y").expiry =
      some 60000 :=
  (slidingWindow_matches_spec [⟨0, "0-x"⟩] 70000 1 60000 "y"
      (by decide) (by decide)).2.1
    (by norm_num [zremrangebyscore])

/-- C6 counterexample: with the invalid (non-positive) limit `0`, a
fixed-window `evaluate()` raises nothing and silently coerces the invalid
value into a normal result — a concrete denial with `remaining = 0` and a
TTL-derived wait — refuting the claim that an error is raised at the
earliest point an invalid value is observed.  (The embedded evaluators are
total because the source has no validation or `throw` on any path;
`RateLimiterError` is defined in src/shared/error.ts but never raised.) -/
theorem invalid_limit_coerced_into_result :
    evaluateFixedWindowLimit none 0 60000 =
      ⟨⟨0, false, 0, 60⟩, ⟨1, some 60000⟩⟩ := by
  norm_num [evaluateFixedWindowLimit, FWRecord.pttl, FWOutcome.mk.injEq,
    EvalResult.mk.injEq, FWRecord.mk.injEq]

/-- C6 amended: no configuration validation exists; a non-positive limit is
silently used by the arithmetic, producing an unconditional denial with
`remaining = 0` (fixed window, for any store state with a non-negative
counter, and sliding window, for any store state). -/
theorem invalid_limit_silently_denies :
    (∀ (st : Option FWRecord) (limit window : ℤ),
      (∀ r, st = some r → 0 ≤ r.count) → limit ≤ 0 →
      (evaluateFixedWindowLimit st limit window).result.allowed = false ∧
      (evaluateFixedWindowLimit st limit window).result.remaining = 0) ∧
    (∀ (log : List SWEntry) (now limit window : ℤ) (tag : String),
      limit ≤ 0 →
      (evaluateSlidingWindowLimit log now limit window tag).result.allowed =
        false ∧
      (evaluateSlidingWindowLimit log now limit window
          tag).result.remaining = 0) := by
  constructor
  · intro st limit window hst hlim
    cases st with
    | none =>
        constructor
        · simp only [evaluateFixedWindowLimit]
          exact decide_eq_false (by omega)
        · simp only [evaluateFixedWindowLimit]
          rw [max_eq_left (by omega)]
    | some r =>
        have hcount := hst r rfl
        constructor
        · simp only [evaluateFixedWindowLimit]
          exact decide_eq_false (by omega)
        · simp only [evaluateFixedWindowLimit]
          rw [max_eq_left (by omega)]
  · intro log now limit window tag hlim
    constructor
    · simp only [evaluateSlidingWindowLimit]
      exact decide_eq_false
        (not_lt.2 (le_trans hlim (Int.natCast_nonneg _)))
    · simp only [evaluateSlidingWindowLimit]
      rw [max_eq_left (by omega)]

/-- Closed instance of `invalid_limit_silently_denies`: limit `0` on a fresh
fixed-window key. -/
theorem invalid_limit_silently_denies_witness :
    (evaluateFixedWindowLimit none 0 60000).result.allowed = false ∧
    (evaluateFixedWindowLimit none 0 60000).result.remaining = 0 :=
  invalid_limit_silently_denies.1 none 0 60000
    (fun r hr => Option.noConfusion hr) (le_refl 0)

/-- C7 counterexample: on a fresh sliding-window key with `limit = 1` the
call is admitted and one admission is now counted in the window, yet
`remaining = 1`, not `max(0, 1 − 1) = 0` — the sliding-window `remaining`
is computed from the count taken before the current call's insert, so it
does not include the current admission as the claim states. -/
theorem slidingWindow_remaining_excludes_current_admission :
    (evaluateSlidingWindowLimit [] 1000 1 60000 "r").result.allowed = true ∧
    ((evaluateSlidingWindowLimit [] 1000 1 60000 "r").log.length : ℤ) = 1 ∧
    ¬((evaluateSlidingWindowLimit [] 1000 1 60000 "r").result.remaining =
        max 0 (1 -
          ((evaluateSlidingWindowLimit [] 1000 1 60000 "r").log.length :
            ℤ))) := by
  refine ⟨?_, ?_, ?_⟩ <;>
    norm_num [evaluateSlidingWindowLimit, zremrangebyscore, zadd]

/-- The post-update token count is non-negative whenever the tokens read,
the refill amount and the capacity are non-negative. -/
theorem newTokens_nonneg (limit T : ℚ) (ra : ℤ) (hlim : 0 ≤ limit)
    (hT : 0 ≤ T) (hra : 0 ≤ ra) :
    0 ≤ (if 1 ≤ min limit (T + (ra : ℚ)) then min limit (T + (ra : ℚ)) - 1
         else min limit (T + (ra : ℚ))) := by
  have h1 : 0 ≤ min limit (T + (ra : ℚ)) :=
    le_min hlim (add_nonneg hT (by exact_mod_cast hra))
  split_ifs with h
  · linarith
  · exact h1

/-- C7 amended: `remaining = max(0, limit − used)` where `used` is the
counter value after the current call's increment for the fixed window but
the pre-insert survivor count — excluding the current admission — for the
sliding window; both are trivially non-negative.  The token-bucket
`remaining` is `floor` of the post-update token count, non-negative
provided the capacity and refill rate are non-negative, the stored tokens
are non-negative and the stored `last_refill` is not in the future. -/
theorem remaining_formula_amended :
    (∀ (st : Option FWRecord) (limit window : ℤ),
      (evaluateFixedWindowLimit st limit window).result.remaining =
        max 0
          (limit - (evaluateFixedWindowLimit st limit window).state.count) ∧
      0 ≤ (evaluateFixedWindowLimit st limit window).result.remaining) ∧
    (∀ (log : List SWEntry) (now limit window : ℤ) (tag : String),
      (evaluateSlidingWindowLimit log now limit window tag).result.remaining
          =
        max 0
          (limit - ((zremrangebyscore log 0 (now - window)).length : ℤ)) ∧
      0 ≤ (evaluateSlidingWindowLimit log now limit window
            tag).result.remaining) ∧
    (∀ (st : Option TBRecord) (now : ℤ) (limit refill : ℚ) (window : ℤ),
      0 ≤ limit → 0 ≤ refill →
      (∀ r, st = some r → 0 ≤ r.tokens ∧ r.lastRefill ≤ now) →
      0 ≤ (evaluateTokenBucketLimit st now limit refill
            window).result.remaining) := by
  refine ⟨?_, ?_, ?_⟩
  · intro st limit window
    constructor
    · simp only [evaluateFixedWindowLimit]
      split_ifs <;> rfl
    · simp only [evaluateFixedWindowLimit]
      exact le_max_left _ _
  · intro log now limit window tag
    exact ⟨rfl, le_max_left _ _⟩
  · intro st now limit refill window hlim hr hst
    cases st with
    | none =>
        have hra : (0 : ℤ) ≤ ⌊((now - now : ℤ) : ℚ) / 1000 * refill⌋ := by
          apply Int.le_floor.2
          push_cast
          apply mul_nonneg
          · apply div_nonneg _ (by norm_num)
            simp
          · exact hr
        simp only [evaluateTokenBucketLimit]
        rw [Int.le_floor]
        exact le_trans (by norm_num)
          (newTokens_nonneg limit _ _ hlim hlim hra)
    | some r =>
        obtain ⟨hT, hlast⟩ := hst r rfl
        have hra : (0 : ℤ) ≤
            ⌊((now - r.lastRefill : ℤ) : ℚ) / 1000 * refill⌋ := by
          apply Int.le_floor.2
          push_cast
          apply mul_nonneg
          · apply div_nonneg _ (by norm_num)
            have hs := sub_nonneg.2 hlast
            exact_mod_cast hs
          · exact hr
        simp only [evaluateTokenBucketLimit]
        rw [Int.le_floor]
        exact le_trans (by norm_num)
          (newTokens_nonneg limit _ _ hlim hT hra)

/-- Closed instance of `remaining_formula_amended`: a token bucket holding 2
tokens and a fresh fixed-window key. -/
theorem remaining_formula_amended_witness :
    0 ≤ (evaluateTokenBucketLimit (some ⟨2, 0⟩) 1000 5 1
          60000).result.remaining ∧
    (evaluateFixedWindowLimit none 3 60000).result.remaining =
      max 0 (3 - (evaluateFixedWindowLimit none 3 60000).state.count) :=
  ⟨remaining_formula_amended.2.2 (some ⟨2, 0⟩) 1000 5 1 60000 (by norm_num)
      (by norm_num)
      (fun r hr => by cases hr; exact ⟨by norm_num, by norm_num⟩),
   (remaining_formula_amended.1 none 3 60000).1⟩

/-- C8 counterexample: for the src/core/index.ts variant, `create()` resolves
the key producer once and every `evaluate()` reuses that cached physical key,
so the second call does not use the producer's fresh (second) value —
refuting "re-resolved on every evaluate() call, with no caching of a resolved
key". -/
theorem core_create_caches_resolved_key :
    coreKeyAtCall "rl" "fixed_window"
        (.producer fun n => if n = 0 then "a" else "b") 1 ≠
      generateKey "rl" "fixed_window"
        (resolveKeyAt (.producer fun n => if n = 0 then "a" else "b") 1) := by
  decide

/-- C8 amended: the src/index.ts limiter re-resolves the key and the limit on
every `evaluate()` call (the `n`-th call uses the producer's `n`-th value),
while the src/core/index.ts limiter resolves the key once inside `create()`
and every `evaluate()` reuses that same physical key (its limit is a plain
number, so no limit producer exists there). -/
theorem key_resolution_per_variant :
    (∀ (pfx algo : String) (key : KeySource) (n : ℕ),
      mainKeyAtCall pfx algo key n =
        generateKey pfx algo (resolveKeyAt key n)) ∧
    (∀ (lim : LimitSource) (n : ℕ),
      mainLimitAtCall lim n = resolveLimitAt lim n) ∧
    (∀ (pfx algo : String) (key : KeySource) (m n : ℕ),
      coreKeyAtCall pfx algo key m = coreKeyAtCall pfx algo key n) :=
  ⟨fun _ _ _ _ => rfl, fun _ _ => rfl, fun _ _ _ _ _ => rfl⟩

/-- C9 counterexample: capacity 1, stored tokens 0 ∈ [0, 1], but the stored
`last_refill` (2000) lies in the future of `now` (0) — as can happen under
clock skew between distributed callers — so the refill amount is negative
and the evaluation writes back tokens = −2 ∉ [0, 1]. -/
theorem tokenBucket_range_violated_without_monotone_clock :
    (1 : ℚ) ≤ 1 ∧
    0 ≤ (TBRecord.mk 0 2000).tokens ∧ (TBRecord.mk 0 2000).tokens ≤ 1 ∧
    ¬(0 ≤ (evaluateTokenBucketLimit (some ⟨0, 2000⟩) 0 1 1
            60000).written.tokens ∧
       (evaluateTokenBucketLimit (some ⟨0, 2000⟩) 0 1 1
            60000).written.tokens ≤ 1) := by
  refine ⟨le_refl 1, by norm_num, by norm_num, ?_⟩
  norm_num [evaluateTokenBucketLimit, roundTo2]

/-- Bounds on the post-update token value and its floor: with capacity ≥ 1,
tokens read in [0, capacity] and a non-negative refill amount, both the
`toFixed(2)`-rounded persisted value and the floored `remaining` stay in
[0, capacity]. -/
theorem newTokens_bounds (limit T : ℚ) (ra : ℤ) (hcap : 1 ≤ limit)
    (hT : 0 ≤ T) (hTle : T ≤ limit) (hra : 0 ≤ ra) :
    0 ≤ roundTo2 (if 1 ≤ min limit (T + (ra : ℚ))
          then min limit (T + (ra : ℚ)) - 1
          else min limit (T + (ra : ℚ))) ∧
    roundTo2 (if 1 ≤ min limit (T + (ra : ℚ))
          then min limit (T + (ra : ℚ)) - 1
          else min limit (T + (ra : ℚ))) ≤ limit ∧
    0 ≤ ⌊(if 1 ≤ min limit (T + (ra : ℚ))
          then min limit (T + (ra : ℚ)) - 1
          else min limit (T + (ra : ℚ)))⌋ ∧
    ((⌊(if 1 ≤ min limit (T + (ra : ℚ))
          then min limit (T + (ra : ℚ)) - 1
          else min limit (T + (ra : ℚ)))⌋ : ℤ) : ℚ) ≤ limit := by
  have hra0 : (0 : ℚ) ≤ (ra : ℚ) := by exact_mod_cast hra
  have h0 : 0 ≤ min limit (T + (ra : ℚ)) :=
    le_min (le_trans zero_le_one hcap) (add_nonneg hT hra0)
  have hle : min limit (T + (ra : ℚ)) ≤ limit := min_le_left _ _
  split_ifs with h
  · have hnt0 : 0 ≤ min limit (T + (ra : ℚ)) - 1 := by linarith
    have hup : min limit (T + (ra : ℚ)) - 1 ≤ limit - 1 := by linarith
    refine ⟨roundTo2_nonneg _ hnt0, ?_, ?_, ?_⟩
    · have hh := roundTo2_le_add (min limit (T + (ra : ℚ)) - 1)
      linarith
    · exact Int.le_floor.2 (by push_cast; linarith)
    · have hh := Int.floor_le (min limit (T + (ra : ℚ)) - 1)
      linarith
  · have hlt : min limit (T + (ra : ℚ)) < 1 := not_le.1 h
    refine ⟨roundTo2_nonneg _ h0, ?_, ?_, ?_⟩
    · exact le_trans (roundTo2_le_one _ hlt) hcap
    · exact Int.le_floor.2 (by push_cast; linarith)
    · have hh := Int.floor_le (min limit (T + (ra : ℚ)))
      linarith

/-- C9 amended: for capacity ≥ 1, a non-negative refill rate and a stored
`last_refill` not in the future of `now` (monotone clock), tokens read
absent or in [0, capacity] imply the written-back tokens value and the
returned `remaining` both lie in [0, capacity].  Without the clock
hypothesis the invariant fails (see the counterexample). -/
theorem tokenBucket_tokens_range_invariant (st : Option TBRecord) (now : ℤ)
    (limit refill : ℚ) (window : ℤ) (hcap : 1 ≤ limit) (hr : 0 ≤ refill)
    (hst : ∀ r, st = some r →
      0 ≤ r.tokens ∧ r.tokens ≤ limit ∧ r.lastRefill ≤ now) :
    (0 ≤ (evaluateTokenBucketLimit st now limit refill
          window).written.tokens ∧
      (evaluateTokenBucketLimit st now limit refill window).written.tokens ≤
        limit) ∧
    (0 ≤ (evaluateTokenBucketLimit st now limit refill
          window).result.remaining ∧
      (((evaluateTokenBucketLimit st now limit refill
          window).result.remaining : ℤ) : ℚ) ≤ limit) := by
  cases st with
  | none =>
      have hra : (0 : ℤ) ≤ ⌊((now - now : ℤ) : ℚ) / 1000 * refill⌋ := by
        apply Int.le_floor.2
        push_cast
        apply mul_nonneg
        · apply div_nonneg _ (by norm_num)
          simp
        · exact hr
      have hb := newTokens_bounds limit limit _ hcap
        (le_trans zero_le_one hcap) (le_refl limit) hra
      simp only [evaluateTokenBucketLimit]
      exact ⟨⟨hb.1, hb.2.1⟩, hb.2.2.1, hb.2.2.2⟩
  | some r =>
      obtain ⟨h1, h2, h3⟩ := hst r rfl
      have hra : (0 : ℤ) ≤
          ⌊((now - r.lastRefill : ℤ) : ℚ) / 1000 * refill⌋ := by
        apply Int.le_floor.2
        push_cast
        apply mul_nonneg
        · apply div_nonneg _ (by norm_num)
          have hs := sub_nonneg.2 h3
          exact_mod_cast hs
        · exact hr
      have hb := newTokens_bounds limit r.tokens _ hcap h1 h2 hra
      simp only [evaluateTokenBucketLimit]
      exact ⟨⟨hb.1, hb.2.1⟩, hb.2.2.1, hb.2.2.2⟩

/-- Closed instance of `tokenBucket_tokens_range_invariant`: 1 stored token,
capacity 2, half a second of refill at 1 token/s. -/
theorem tokenBucket_tokens_range_invariant_witness :
    (0 ≤ (evaluateTokenBucketLimit (some ⟨1, 0⟩) 500 2 1
          60000).written.tokens ∧
      (evaluateTokenBucketLimit (some ⟨1, 0⟩) 500 2 1 60000).written.tokens ≤
        2) ∧
    (0 ≤ (evaluateTokenBucketLimit (some ⟨1, 0⟩) 500 2 1
          60000).result.remaining ∧
      (((evaluateTokenBucketLimit (some ⟨1, 0⟩) 500 2 1
          60000).result.remaining : ℤ) : ℚ) ≤ 2) :=
  tokenBucket_tokens_range_invariant (some ⟨1, 0⟩) 500 2 1 60000
    (by norm_num) (by norm_num)
    (fun r hr => by
      cases hr
      exact ⟨by norm_num, by norm_num, by norm_num⟩)

/-- One no-refill step cannot increase the stored token value (the stored
value is a `toFixed(2)` multiple of 1/100, on which the rounding is
monotone-identity). -/
theorem tbStep_tokens_le (limit refill : ℚ) (window : ℤ) (r : TBRecord)
    (n : ℤ) (h2d : TwoDecimal r.tokens)
    (hch : ⌊((n - r.lastRefill : ℤ) : ℚ) / 1000 * refill⌋ = 0) :
    (tbStep limit refill window r n).tokens ≤ r.tokens := by
  unfold tbStep
  simp only [evaluateTokenBucketLimit]
  rw [hch]
  have hmin : min limit (r.tokens + ((0 : ℤ) : ℚ)) ≤ r.tokens := by
    have hz : ((0 : ℤ) : ℚ) = 0 := by norm_num
    rw [hz, add_zero]
    exact min_le_right _ _
  refine le_trans (roundTo2_mono _ _ ?_)
    (le_of_eq (roundTo2_eq_of_twoDecimal _ h2d))
  split_ifs with h
  · linarith
  · exact hmin

/-- C10: every token-bucket evaluation — allowed or denied — overwrites
`last_refill` with the current instant; consequently, along any sequence of
evaluations on one key in which every inter-call interval refills zero whole
tokens (`floor(elapsedSeconds * refill) = 0`), the stored token value never
increases, no matter how much total time elapses: the fractional refill
credit is discarded at each call. -/
theorem tokenBucket_lastRefill_reset_and_no_refill_monotone
    (limit refill : ℚ) (window : ℤ) :
    (∀ (st : Option TBRecord) (now : ℤ),
      (evaluateTokenBucketLimit st now limit refill
          window).written.lastRefill = now) ∧
    (∀ (r : TBRecord) (ns : List ℤ), TwoDecimal r.tokens →
      noRefillChain refill r.lastRefill ns →
      (tbRun limit refill window r ns).tokens ≤ r.tokens) := by
  constructor
  · intro st now
    cases st <;> rfl
  · intro r ns
    induction ns generalizing r with
    | nil => intro _ _; exact le_refl _
    | cons n ns ih =>
        intro h2d hch
        have hstep := tbStep_tokens_le limit refill window r n h2d hch.1
        have h2d' : TwoDecimal (tbStep limit refill window r n).tokens :=
          roundTo2_twoDecimal _
        have hlast : (tbStep limit refill window r n).lastRefill = n := rfl
        have hrec := ih (tbStep limit refill window r n) h2d'
          (by rw [hlast]; exact hch.2)
        exact le_trans hrec hstep

/-- Closed instance of `tokenBucket_lastRefill_reset_and_no_refill_monotone`:
two evaluations 0.5 s and 0.4 s apart at 1 token/s never grow the stored
tokens, and an evaluation stamps `last_refill` with its own instant. -/
theorem tokenBucket_no_refill_monotone_witness :
    (evaluateTokenBucketLimit none 123 5 1 60000).written.lastRefill = 123 ∧
    (tbRun 5 1 60000 ⟨5, 0⟩ [500, 900]).tokens ≤ (TBRecord.mk 5 0).tokens :=
  ⟨(tokenBucket_lastRefill_reset_and_no_refill_monotone 5 1 60000).1 none
      123,
   (tokenBucket_lastRefill_reset_and_no_refill_monotone 5 1 60000).2 ⟨5, 0⟩
      [500, 900] ⟨500, by norm_num⟩ (by norm_num [noRefillChain])⟩
